import Mathlib

/-!
Verification development for the NoC build-pipeline repository.

The repository holds two C++ programs in one source file:

* `Project_manager` — a CLI that opens / creates / erases / renames a
  project directory holding a `<name>_metadata.json` file plus two
  companion artifacts (a serialized-graph file and a Verilog directory);
* `Broker` — the pipeline orchestrator that clears stage-completion
  flags in the metadata file (`uncheckMetadata`) before launching each
  requested external stage tool (graph generator, Quartus compiler,
  database writer) in a fixed order, halting on the first non-zero exit.

The definitions below are a shallow embedding of both programs.  The
filesystem is modelled as a map from path strings to optional entries;
external stage tools are opaque: each is a pair of an exit code and an
arbitrary transformation of the metadata file (the tool's own writes).
-/

/-- Embeds the C++ `ProjectMetadata` class (top-level name field). -/
structure ProjectMetadata where
  name : String := ""
deriving DecidableEq

/-- Embeds the C++ `GraphVerilogMetadata` class. -/
structure GraphVerilogMetadata where
  graphSerialized : Bool := false
  verilogGenerated : Bool := false
deriving DecidableEq

/-- Embeds the C++ `QuartusMetadata` class. -/
structure QuartusMetadata where
  quartusCompiled : Bool := false
  deviceName : String := "5CGXFC9E7F35C8"
deriving DecidableEq

/-- Embeds the C++ `DatabaseMetadata` class. -/
structure DatabaseMetadata where
  dbIp : String := ""
  dbUsername : String := ""
  dbPassword : String := ""
  dbName : String := ""
  dbPort : Int := -1
  writtenToDB : Bool := false
deriving DecidableEq

/-- Embeds the C++ `ProjectSettings` class: the full ProjectRecord stored
in `<location>/<name>_metadata.json`. -/
structure ProjectSettings where
  projectMetadata : ProjectMetadata := {}
  graphVerilogMetadata : GraphVerilogMetadata := {}
  quartusMetadata : QuartusMetadata := {}
  databaseMetadata : DatabaseMetadata := {}
deriving DecidableEq

/-- The fresh record `Project_manager --create` serializes: given name,
every stage flag false, all other fields at their C++ defaults. -/
def freshProjectSettings (name : String) : ProjectSettings :=
  { projectMetadata := { name := name } }

/-- The stage-completion flag at pipeline position `k`, in the order
[graphSerialized, verilogGenerated, quartusCompiled, writtenToDB]. -/
def flagAt : Nat → ProjectSettings → Bool
  | 0, ps => ps.graphVerilogMetadata.graphSerialized
  | 1, ps => ps.graphVerilogMetadata.verilogGenerated
  | 2, ps => ps.quartusMetadata.quartusCompiled
  | 3, ps => ps.databaseMetadata.writtenToDB
  | _, _ => false

/-- Prefix closure of the completion flags: no flag is set while the
flag immediately before it in pipeline order is clear. -/
def prefixClosed (ps : ProjectSettings) : Prop :=
  (ps.graphVerilogMetadata.verilogGenerated = true →
    ps.graphVerilogMetadata.graphSerialized = true) ∧
  (ps.quartusMetadata.quartusCompiled = true →
    ps.graphVerilogMetadata.verilogGenerated = true) ∧
  (ps.databaseMetadata.writtenToDB = true →
    ps.quartusMetadata.quartusCompiled = true)

instance (ps : ProjectSettings) : Decidable (prefixClosed ps) := by
  unfold prefixClosed; infer_instance

/-- The flag-clearing core of the Broker's `uncheckMetadata` (main.cpp,
lines 526-529): `stage <= 3` clears `writtenToDB`, `stage <= 2` clears
`quartusCompiled`, `stage <= 1` clears `verilogGenerated`, `stage == 0`
clears `graphSerialized`. -/
def uncheckFlags (stage : Int) (ps : ProjectSettings) : ProjectSettings :=
  let ps1 := if stage ≤ 3 then
    { ps with databaseMetadata := { ps.databaseMetadata with writtenToDB := false } } else ps
  let ps2 := if stage ≤ 2 then
    { ps1 with quartusMetadata := { ps1.quartusMetadata with quartusCompiled := false } } else ps1
  let ps3 := if stage ≤ 1 then
    { ps2 with graphVerilogMetadata :=
        { ps2.graphVerilogMetadata with verilogGenerated := false } } else ps2
  if stage = 0 then
    { ps3 with graphVerilogMetadata :=
        { ps3.graphVerilogMetadata with graphSerialized := false } } else ps3

/-- The Broker's `uncheckMetadata` as a transformation of the metadata
file's state (`none` = no file at the path).  When the file is missing
the C++ function prints to stderr and returns without writing; when it
is present, the four flags are cleared per `uncheckFlags` and the file
is written back. -/
def uncheckMetadata (file : Option ProjectSettings) (stage : Int) : Option ProjectSettings :=
  match file with
  | none => none
  | some ps => some (uncheckFlags stage ps)

/-- The three external stage tools the Broker can launch. -/
inductive Tool
  | graph
  | quartus
  | database
deriving DecidableEq

/-- The `stage` argument the Broker passes to `uncheckMetadata` before
launching each tool (main.cpp lines 693, 705, 717). -/
def uncheckStage : Tool → Int
  | Tool.graph => 0
  | Tool.quartus => 2
  | Tool.database => 3

/-- One external tool run, observed across the process boundary: its
exit code, and its own transformation of the metadata file (the tools
are independent executables outside this repository; the Broker sees
only the exit status). -/
structure ToolRun where
  exitCode : Int
  effect : Option ProjectSettings → Option ProjectSettings

/-- Outcome of one Broker invocation over the stage pipeline: final
metadata-file state, the tools actually launched in order, and the
process exit code. -/
structure PipeResult where
  file : Option ProjectSettings
  trace : List Tool
  exitCode : Nat
deriving DecidableEq

/-- The Broker's stage loop (main.cpp lines 692-726): for each requested
stage in the fixed order of the list, clear flags via `uncheckMetadata`,
launch the tool, and on a non-zero exit return 1 without attempting the
remaining stages. -/
def runPipeline (env : Tool → ToolRun) : List Tool → Option ProjectSettings → PipeResult
  | [], file => { file := file, trace := [], exitCode := 0 }
  | t :: ts, file =>
    let invalidated := uncheckMetadata file (uncheckStage t)
    let r := env t
    let afterTool := r.effect invalidated
    if r.exitCode = 0 then
      let rest := runPipeline env ts afterTool
      { file := rest.file, trace := t :: rest.trace, exitCode := rest.exitCode }
    else
      { file := afterTool, trace := [t], exitCode := 1 }

/-- The list of stages one Broker invocation will attempt, in the fixed
program order graph, quartus, database (the three sequential `if`
blocks of main.cpp lines 692-726), given which stages were requested. -/
def requested (g q d : Bool) : List Tool :=
  (if g then [Tool.graph] else []) ++
  (if q then [Tool.quartus] else []) ++
  (if d then [Tool.database] else [])

/-- Modelled from the spec: the successful stage tools (independent
executables, not part of src/) each set exactly the completion flag(s)
they own in the metadata file — the graph/Verilog generator sets
`graphSerialized` and `verilogGenerated`, the Quartus compiler sets
`quartusCompiled`, the database writer sets `writtenToDB`. -/
def toolMark : Tool → ProjectSettings → ProjectSettings
  | Tool.graph, ps =>
    { ps with graphVerilogMetadata :=
        { ps.graphVerilogMetadata with graphSerialized := true, verilogGenerated := true } }
  | Tool.quartus, ps =>
    { ps with quartusMetadata := { ps.quartusMetadata with quartusCompiled := true } }
  | Tool.database, ps =>
    { ps with databaseMetadata := { ps.databaseMetadata with writtenToDB := true } }

/-- An environment where every tool exits 0 and writes its own
completion flag(s), per the collaborator contract. -/
def envOK : Tool → ToolRun :=
  fun t => { exitCode := 0, effect := Option.map (toolMark t) }

/-- An environment where every tool exits 0 but writes nothing: tools
deliver only an exit status, so this is a legal observation of the
process boundary. -/
def envNoWrite : Tool → ToolRun :=
  fun _ => { exitCode := 0, effect := fun f => f }

/-- A concrete record with every stage flag set. -/
def psAllTrue : ProjectSettings :=
  { projectMetadata := { name := "P" }
    graphVerilogMetadata := { graphSerialized := true, verilogGenerated := true }
    quartusMetadata := { quartusCompiled := true }
    databaseMetadata := { writtenToDB := true } }

/-- Tool environment for the halt-on-failure scenario: the graph tool
succeeds and writes its own flags, the Quartus compiler fails with exit
code 1 leaving the file as it found it, the database writer would
succeed. -/
def envC4 : Tool → ToolRun
  | Tool.graph => { exitCode := 0, effect := Option.map (toolMark Tool.graph) }
  | Tool.quartus => { exitCode := 1, effect := fun f => f }
  | Tool.database => { exitCode := 0, effect := Option.map (toolMark Tool.database) }

/-- A freshly created record for project `P`. -/
def psInit : ProjectSettings := freshProjectSettings "P"

/-- The project-management action selected on the command line: the C++
strings `"o"`, `"c"`, `"e"`, `"r"` of both entry points (open, create,
erase, rename). -/
inductive PMAction
  | o
  | c
  | e
  | r
deriving DecidableEq

/-- One filesystem entry relevant to the project layout: a directory,
the project metadata file (with its parsed record), the serialized-graph
file, or the Verilog-description directory. -/
inductive Entry
  | dir
  | metadataFile (ps : ProjectSettings)
  | graphFile
  | verilogDir
deriving DecidableEq

/-- The filesystem, as a map from path strings to optional entries. -/
def FSys : Type := String → Option Entry

/-- Write (or delete, with `none`) the entry at one path. -/
def setEntry (fs : FSys) (p : String) (v : Option Entry) : FSys :=
  fun q => if q = p then v else fs q

/-- `std::filesystem::rename src dst`: afterwards `dst` holds what `src`
held and `src` is gone (renaming a path onto itself keeps the entry). -/
def moveEntry (fs : FSys) (src dst : String) : FSys :=
  fun q => if q = dst then fs src else if q = src then none else fs q

/-- The C++ idiom `if (exists(src)) rename(src, dst)`. -/
def moveIfExists (fs : FSys) (src dst : String) : FSys :=
  if (fs src).isSome then moveEntry fs src dst else fs

/-- The C++ idiom `if (exists(p)) remove(p)` (also `remove_all` for the
Verilog directory). -/
def removeIfExists (fs : FSys) (p : String) : FSys :=
  if (fs p).isSome then setEntry fs p none else fs

/-- `<location>/<name>_metadata.json` (main.cpp line 239). -/
def metadataPath (location name : String) : String :=
  location ++ "/" ++ name ++ "_metadata.json"

/-- `<location>/<name>_graph_object_serialized.json` (main.cpp line 241). -/
def graphPath (location name : String) : String :=
  location ++ "/" ++ name ++ "_graph_object_serialized.json"

/-- `<location>/<name>_NoC_description` (main.cpp line 243). -/
def verilogPath (location name : String) : String :=
  location ++ "/" ++ name ++ "_NoC_description"

/-- The `Project_manager` entry point after argument parsing (main.cpp
lines 238-413): performs the selected action against the filesystem and
returns the new filesystem together with the process exit code.
Filesystem write errors (the C++ catch blocks) are not modelled: every
modelled write succeeds. -/
def pmRun (fs : FSys) (location name : String) (action : PMAction) (new_name : String) :
    FSys × Nat :=
  let metadata_location := metadataPath location name
  let new_metadata_location := metadataPath location new_name
  let graph_location := graphPath location name
  let new_graph_location := graphPath location new_name
  let verilog_location := verilogPath location name
  let new_verilog_location := verilogPath location new_name
  match action with
  | PMAction.o | PMAction.r =>
    if (fs location).isNone then (fs, 1)
    else if (fs metadata_location).isNone then (fs, 1)
    else
      match fs metadata_location with
      | some (Entry.metadataFile ps) =>
        if ps.projectMetadata.name ≠ name then (fs, 1)
        else if action = PMAction.r then
          let ps2 := { ps with projectMetadata := { ps.projectMetadata with name := new_name } }
          let fs1 := setEntry fs new_metadata_location (some (Entry.metadataFile ps2))
          let fs2 := setEntry fs1 metadata_location none
          let fs3 := moveIfExists fs2 graph_location new_graph_location
          let fs4 := moveIfExists fs3 metadata_location new_metadata_location
          let fs5 := moveIfExists fs4 verilog_location new_verilog_location
          (fs5, 0)
        else (fs, 0)
      | _ => (fs, 1)
  | PMAction.c =>
    let fs0 := if (fs location).isNone then setEntry fs location (some Entry.dir) else fs
    if (fs0 metadata_location).isSome then (fs0, 1)
    else (setEntry fs0 metadata_location
      (some (Entry.metadataFile (freshProjectSettings name))), 0)
  | PMAction.e =>
    if (fs location).isNone then (fs, 0)
    else if (fs metadata_location).isNone then (fs, 0)
    else
      let fs1 := removeIfExists fs graph_location
      let fs2 := removeIfExists fs1 metadata_location
      let fs3 := removeIfExists fs2 verilog_location
      (fs3, 0)

/-- Every metadata file stored anywhere in the filesystem holds a
prefix-closed record. -/
def MetaClosed (fs : FSys) : Prop :=
  ∀ p ps, fs p = some (Entry.metadataFile ps) → prefixClosed ps

/-- Pairwise distinctness of the six artifact paths involved in renaming
a project from `a` to `b` under `location` (always true for the real
path scheme when `a ≠ b`, since the three suffixes differ). -/
def renamePathsDistinct (location a b : String) : Prop :=
  metadataPath location a ≠ metadataPath location b ∧
  metadataPath location a ≠ graphPath location a ∧
  metadataPath location a ≠ graphPath location b ∧
  metadataPath location a ≠ verilogPath location a ∧
  metadataPath location a ≠ verilogPath location b ∧
  metadataPath location b ≠ graphPath location a ∧
  metadataPath location b ≠ graphPath location b ∧
  metadataPath location b ≠ verilogPath location a ∧
  metadataPath location b ≠ verilogPath location b ∧
  graphPath location a ≠ graphPath location b ∧
  graphPath location a ≠ verilogPath location a ∧
  graphPath location a ≠ verilogPath location b ∧
  graphPath location b ≠ verilogPath location a ∧
  graphPath location b ≠ verilogPath location b ∧
  verilogPath location a ≠ verilogPath location b

instance (location a b : String) : Decidable (renamePathsDistinct location a b) := by
  unfold renamePathsDistinct; infer_instance

/-- The empty filesystem. -/
def emptyFS : FSys := fun _ => none

/-- A project `A` under directory `P` with metadata, graph file and
Verilog directory present. -/
def fsC6 : FSys := fun p =>
  if p = "P" then some Entry.dir
  else if p = metadataPath "P" "A" then some (Entry.metadataFile (freshProjectSettings "A"))
  else if p = graphPath "P" "A" then some Entry.graphFile
  else if p = verilogPath "P" "A" then some Entry.verilogDir
  else none

/-- Like `fsC6`, but the record stored under project `A`'s metadata path
carries the wrong stored name `X`. -/
def fsC6bad : FSys := fun p =>
  if p = "P" then some Entry.dir
  else if p = metadataPath "P" "A" then some (Entry.metadataFile (freshProjectSettings "X"))
  else none

/-- Result of `Project_manager`'s argument loop (main.cpp lines 174-237). -/
structure PMParsed where
  location : String
  name : String
  action : PMAction
  new_name : String
deriving DecidableEq

/-- `Project_manager`'s argument loop: `-l`/`-n` take the following
argument as value (missing value: error exit, modelled as `none`), the
four action flags overwrite the current action (`-r` also taking the new
name), and any other argument is rejected (`none`). -/
def pmParse (location name : String) (action : PMAction) (new_name : String) :
    List String → Option PMParsed
  | [] => some ⟨location, name, action, new_name⟩
  | opt :: rest =>
    if opt = "-l" ∨ opt = "--location" then
      match rest with
      | v :: rest2 => pmParse v name action new_name rest2
      | [] => none
    else if opt = "-n" ∨ opt = "--name" then
      match rest with
      | v :: rest2 => pmParse location v action new_name rest2
      | [] => none
    else if opt = "-o" ∨ opt = "--open" then pmParse location name PMAction.o new_name rest
    else if opt = "-c" ∨ opt = "--create" then pmParse location name PMAction.c new_name rest
    else if opt = "-e" ∨ opt = "--erase" then pmParse location name PMAction.e new_name rest
    else if opt = "-r" ∨ opt = "--rename" then
      match rest with
      | v :: rest2 => pmParse location name PMAction.r v rest2
      | [] => none
    else none

/-- `Project_manager` invoked on a full command line: the loop starts
from empty location/name, default action open (`action = "o"`, main.cpp
line 178), empty new name. -/
def pmParseArgs (args : List String) : Option PMParsed :=
  pmParse "" "" PMAction.o "" args

/-- The accumulated state of the Broker's argument loop (main.cpp lines
599-664).  `key_arg` remembers which stage's free-form arguments are
being collected; `help` records that `-h`/`--help` ended the loop. -/
structure BrokerCfg where
  launch_manager : Bool := false
  launch_graph : Bool := false
  launch_quartus : Bool := false
  launch_db : Bool := false
  project_name : String := ""
  project_location : String := ""
  project_new_name : String := ""
  project_action : PMAction := PMAction.o
  graph_args : String := ""
  quartus_args : String := ""
  db_args : String := ""
  key_arg : Option Tool := none
  help : Bool := false
deriving DecidableEq

/-- The Broker's inner `--project` loop (main.cpp lines 610-626):
consumes recognized project options until an unrecognized argument,
which is handed back to the outer loop.  Reading a value past the end of
the argument vector is modelled as a parse failure. -/
def parseProject (cfg : BrokerCfg) : List String → Option (BrokerCfg × List String)
  | [] => some (cfg, [])
  | next :: rest =>
    if next = "-n" ∨ next = "--name" then
      match rest with
      | v :: rest2 => parseProject { cfg with project_name := v } rest2
      | [] => none
    else if next = "-l" ∨ next = "--location" then
      match rest with
      | v :: rest2 => parseProject { cfg with project_location := v } rest2
      | [] => none
    else if next = "-o" ∨ next = "--open" then
      parseProject { cfg with project_action := PMAction.o } rest
    else if next = "-c" ∨ next = "--create" then
      parseProject { cfg with project_action := PMAction.c } rest
    else if next = "-e" ∨ next = "--erase" then
      parseProject { cfg with project_action := PMAction.e } rest
    else if next = "-r" ∨ next = "--rename" then
      match rest with
      | v :: rest2 =>
        parseProject { cfg with project_action := PMAction.r, project_new_name := v } rest2
      | [] => none
    else some (cfg, next :: rest)

/-- The Broker's outer argument loop (main.cpp lines 605-659), written
with explicit fuel bounding the number of iterations; every iteration
consumes at least one argument, so `fuel = args.length` never runs out
(`parseArgs` below supplies it).  `-h`/`--help` stops the loop with the
help flag set; an argument that is neither a mode switch nor preceded by
a stage key is an error (`none`), as is reading a value past the end. -/
def parseArgsFuel : Nat → BrokerCfg → List String → Option BrokerCfg
  | _, cfg, [] => some cfg
  | 0, _, _ :: _ => none
  | fuel + 1, cfg, arg :: rest =>
    if arg = "--project" then
      match parseProject { cfg with launch_manager := true } rest with
      | some cr => parseArgsFuel fuel cr.1 cr.2
      | none => none
    else if arg = "--graph" then
      parseArgsFuel fuel { cfg with launch_graph := true, key_arg := some Tool.graph } rest
    else if arg = "--quartus" then
      parseArgsFuel fuel { cfg with launch_quartus := true, key_arg := some Tool.quartus } rest
    else if arg = "--database" then
      parseArgsFuel fuel { cfg with launch_db := true, key_arg := some Tool.database } rest
    else if arg = "-h" ∨ arg = "--help" then some { cfg with help := true }
    else
      match cfg.key_arg with
      | none => none
      | some Tool.graph =>
        parseArgsFuel fuel { cfg with graph_args := cfg.graph_args ++ " " ++ arg } rest
      | some Tool.quartus =>
        parseArgsFuel fuel { cfg with quartus_args := cfg.quartus_args ++ " " ++ arg } rest
      | some Tool.database =>
        parseArgsFuel fuel { cfg with db_args := cfg.db_args ++ " " ++ arg } rest

/-- The Broker's argument loop over a full command line, starting from
the defaults of main.cpp lines 599-602 (in particular
`project_action = "o"`). -/
def parseArgs (cfg : BrokerCfg) (args : List String) : Option BrokerCfg :=
  parseArgsFuel args.length cfg args

/-- The default Broker state before argument parsing. -/
def initialCfg : BrokerCfg := {}

/-- The eight command-line action flags of the project manager. -/
def actionFlags : List String :=
  ["-o", "--open", "-c", "--create", "-e", "--erase", "-r", "--rename"]

/-- The record the graph tool of `envC4` leaves behind when run on a
fresh project. -/
def ps1C4 : ProjectSettings := toolMark Tool.graph (uncheckFlags 0 psInit)

/-- The Broker state parsed from `--database --graph`. -/
def cfgDG : BrokerCfg :=
  { launch_graph := true, launch_db := true, key_arg := some Tool.graph }

/-- The Broker's pre-run invalidation only ever clears flags: a flag that
is set after `uncheckFlags` was already set before. -/
theorem uncheckFlags_monotone (s : Int) (ps : ProjectSettings) (k : Nat) :
    flagAt k (uncheckFlags s ps) = true → flagAt k ps = true := by
  match k with
  | 0 | 1 | 2 | 3 => simp only [uncheckFlags, flagAt]; split_ifs <;> simp_all
  | n + 4 => simp [flagAt]

/-- The tools a Broker invocation launches are a subsequence of the
stages it set out to run. -/
theorem runPipeline_trace_sublist (env : Tool → ToolRun) (ts : List Tool)
    (file : Option ProjectSettings) :
    List.Sublist (runPipeline env ts file).trace ts := by
  induction ts generalizing file with
  | nil => simp [runPipeline]
  | cons t ts ih =>
    by_cases h : (env t).exitCode = 0
    · simpa [runPipeline, h] using ih _
    · simp [runPipeline, h]

/-- Whatever subset of stages is requested, the Broker's fixed `if`-block
order lists them as a subsequence of graph, quartus, database. -/
theorem requested_sublist (g q d : Bool) :
    List.Sublist (requested g q d) [Tool.graph, Tool.quartus, Tool.database] := by
  cases g <;> cases q <;> cases d <;> decide

/-- Claim C3: invalidating from the quartus stage clears `quartusCompiled`
and `writtenToDB` and leaves `graphSerialized`/`verilogGenerated` (and all
other record content) exactly as they were; more generally, for a stage at
pipeline position `s` (0-3), invalidation clears every flag at position
`k ≥ s` and no flag at a position `k < s`. -/
theorem c3_downstream_only_invalidation (ps : ProjectSettings) :
    uncheckFlags (uncheckStage Tool.quartus) ps =
      { ps with
          quartusMetadata := { ps.quartusMetadata with quartusCompiled := false }
          databaseMetadata := { ps.databaseMetadata with writtenToDB := false } } ∧
    ∀ s k : Nat, s ≤ 3 → k ≤ 3 →
      flagAt k (uncheckFlags (Int.ofNat s) ps) =
        if s ≤ k then false else flagAt k ps := by
  constructor
  · rfl
  · intro s k hs hk
    interval_cases s <;> interval_cases k <;> simp [uncheckFlags, flagAt]

/-- Witness for C3 at stage position 2 (quartus) and flag position 3. -/
theorem c3_downstream_only_invalidation_witness :
    ((2 : Nat) ≤ 3 ∧ (3 : Nat) ≤ 3) ∧
    flagAt 3 (uncheckFlags (Int.ofNat 2) psAllTrue) =
      if (2 : Nat) ≤ 3 then false else flagAt 3 psAllTrue :=
  ⟨by decide, (c3_downstream_only_invalidation psAllTrue).2 2 3 (by decide) (by decide)⟩

/-- Claim C7: invoking the same pipeline stage twice in a row, with the
tool succeeding (and writing its own flags per the collaborator contract)
on both runs, leaves the stored metadata file equal to what a single
invocation of that stage leaves. -/
theorem c7_repeat_stage_idempotent (t : Tool) (file : Option ProjectSettings) :
    (runPipeline envOK [t] ((runPipeline envOK [t] file).file)).file =
      (runPipeline envOK [t] file).file := by
  cases t <;> cases file <;> rfl

/-- Claim C1 as stated is false on the code: the Broker performs no
metadata write after a tool's zero exit.  Here the quartus stage is
requested, its tool exits 0 without writing the file (the Broker sees
only the exit status), and the stored record ends with
`quartusCompiled = false`: the run succeeded yet the stage's flag is not
true, because the orchestrator only cleared it beforehand and never set
it. -/
theorem c1_counterexample :
    (runPipeline envNoWrite [Tool.quartus] (some psAllTrue)).exitCode = 0 ∧
    (runPipeline envNoWrite [Tool.quartus] (some psAllTrue)).trace = [Tool.quartus] ∧
    (runPipeline envNoWrite [Tool.quartus] (some psAllTrue)).file =
      some (uncheckFlags 2 psAllTrue) ∧
    (uncheckFlags 2 psAllTrue).quartusMetadata.quartusCompiled = false :=
  ⟨rfl, rfl, rfl, rfl⟩

/-- Claim C1, amended: after a requested stage's tool exits with status
0, the orchestrator performs no further metadata write — the stored
record is exactly the external tool's own transformation of the record
the orchestrator invalidated before launching, and the orchestrator's
only write (`uncheckMetadata`) never sets a flag, so the stage's
completion flag(s) are true afterwards only if the tool itself set
them. -/
theorem c1_orchestrator_only_clears (env : Tool → ToolRun) (t : Tool)
    (file : Option ProjectSettings) (h : (env t).exitCode = 0) :
    (runPipeline env [t] file).file =
      (env t).effect (uncheckMetadata file (uncheckStage t)) ∧
    (runPipeline env [t] file).exitCode = 0 ∧
    ∀ (s : Int) (ps : ProjectSettings) (k : Nat),
      flagAt k (uncheckFlags s ps) = true → flagAt k ps = true := by
  refine ⟨by simp [runPipeline, h], by simp [runPipeline, h], ?_⟩
  intro s ps k
  exact uncheckFlags_monotone s ps k

/-- Witness for the amended C1 at a concrete successful stage run. -/
theorem c1_orchestrator_only_clears_witness :
    (envNoWrite Tool.graph).exitCode = 0 ∧
    ((runPipeline envNoWrite [Tool.graph] none).file =
        (envNoWrite Tool.graph).effect (uncheckMetadata none (uncheckStage Tool.graph)) ∧
      (runPipeline envNoWrite [Tool.graph] none).exitCode = 0 ∧
      ∀ (s : Int) (ps : ProjectSettings) (k : Nat),
        flagAt k (uncheckFlags s ps) = true → flagAt k ps = true) :=
  ⟨rfl, c1_orchestrator_only_clears envNoWrite Tool.graph none rfl⟩

/-- Claim C2 as stated is false on the code: with no metadata file at
the derived path (`none`), a requested quartus stage still launches its
tool (the trace contains it) and, the tool succeeding, the invocation
exits 0 — `uncheckMetadata` only prints a message and returns when the
file is missing, it does not abort the run. -/
theorem c2_counterexample :
    (runPipeline envNoWrite [Tool.quartus] none).trace = [Tool.quartus] ∧
    (runPipeline envNoWrite [Tool.quartus] none).exitCode = 0 ∧
    (runPipeline envNoWrite [Tool.quartus] none).file = none :=
  ⟨rfl, rfl, rfl⟩

/-- Claim C2, amended: if no metadata file exists at the derived path,
`uncheckMetadata` performs no mutation, but the invocation does not fail
at that point: the first requested stage's tool is launched regardless,
and the exit status is decided by the tools' exit codes alone (0 when
every launched tool exits 0). -/
theorem c2_missing_metadata_not_fatal :
    (∀ s : Int, uncheckMetadata none s = none) ∧
    (∀ (env : Tool → ToolRun) (t : Tool) (ts : List Tool) (file : Option ProjectSettings),
      (runPipeline env (t :: ts) file).trace.head? = some t) ∧
    (∀ (env : Tool → ToolRun) (ts : List Tool) (file : Option ProjectSettings),
      (∀ t, (env t).exitCode = 0) → (runPipeline env ts file).exitCode = 0) := by
  refine ⟨fun s => rfl, ?_, ?_⟩
  · intro env t ts file
    by_cases h : (env t).exitCode = 0 <;> simp [runPipeline, h]
  · intro env ts file h
    induction ts generalizing file with
    | nil => rfl
    | cons t ts ih => simp only [runPipeline]; rw [if_pos (h t)]; exact ih _

/-- Witness for the amended C2 on a missing metadata file. -/
theorem c2_missing_metadata_not_fatal_witness :
    ((runPipeline envNoWrite (Tool.quartus :: []) none).trace.head? = some Tool.quartus) ∧
    (runPipeline envNoWrite [Tool.quartus] none).exitCode = 0 :=
  ⟨c2_missing_metadata_not_fatal.2.1 envNoWrite Tool.quartus [] none,
   c2_missing_metadata_not_fatal.2.2 envNoWrite [Tool.quartus] none (fun _ => rfl)⟩

/-- Claim C4: requesting graph, quartus and database together, when the
graph tool succeeds (writing its own flags) and the quartus tool fails
(leaving the file as it found it), the Broker launches exactly graph
then quartus — the database tool is never invoked — exits 1, and the
stored record has `graphSerialized` and `verilogGenerated` true while
`quartusCompiled` and `writtenToDB` are false. -/
theorem c4_halt_on_failure (env : Tool → ToolRun) (ps0 ps1 : ProjectSettings)
    (hg : (env Tool.graph).exitCode = 0)
    (hgeff : (env Tool.graph).effect (some (uncheckFlags 0 ps0)) = some ps1)
    (h1g : ps1.graphVerilogMetadata.graphSerialized = true)
    (h1v : ps1.graphVerilogMetadata.verilogGenerated = true)
    (hq : (env Tool.quartus).exitCode ≠ 0)
    (hqeff : (env Tool.quartus).effect (some (uncheckFlags 2 ps1)) =
      some (uncheckFlags 2 ps1)) :
    (runPipeline env (requested true true true) (some ps0)).trace =
      [Tool.graph, Tool.quartus] ∧
    Tool.database ∉ (runPipeline env (requested true true true) (some ps0)).trace ∧
    (runPipeline env (requested true true true) (some ps0)).exitCode = 1 ∧
    (runPipeline env (requested true true true) (some ps0)).file =
      some (uncheckFlags 2 ps1) ∧
    (uncheckFlags 2 ps1).graphVerilogMetadata.graphSerialized = true ∧
    (uncheckFlags 2 ps1).graphVerilogMetadata.verilogGenerated = true ∧
    (uncheckFlags 2 ps1).quartusMetadata.quartusCompiled = false ∧
    (uncheckFlags 2 ps1).databaseMetadata.writtenToDB = false := by
  have hrun : runPipeline env (requested true true true) (some ps0) =
      { file := some (uncheckFlags 2 ps1),
        trace := [Tool.graph, Tool.quartus], exitCode := 1 } := by
    show runPipeline env [Tool.graph, Tool.quartus, Tool.database] (some ps0) = _
    simp [runPipeline, uncheckMetadata, uncheckStage, hg, hq, hgeff, hqeff]
  have e1 : (uncheckFlags 2 ps1).graphVerilogMetadata = ps1.graphVerilogMetadata := rfl
  refine ⟨by rw [hrun], by rw [hrun]; simp, by rw [hrun], by rw [hrun],
    by rw [e1]; exact h1g, by rw [e1]; exact h1v, rfl, rfl⟩

/-- Witness for C4 with the concrete environment `envC4` on a fresh
project record. -/
theorem c4_halt_on_failure_witness :
    ((envC4 Tool.graph).exitCode = 0 ∧ (envC4 Tool.quartus).exitCode ≠ 0) ∧
    ((runPipeline envC4 (requested true true true) (some psInit)).trace =
        [Tool.graph, Tool.quartus] ∧
      Tool.database ∉ (runPipeline envC4 (requested true true true) (some psInit)).trace ∧
      (runPipeline envC4 (requested true true true) (some psInit)).exitCode = 1 ∧
      (runPipeline envC4 (requested true true true) (some psInit)).file =
        some (uncheckFlags 2 ps1C4) ∧
      (uncheckFlags 2 ps1C4).graphVerilogMetadata.graphSerialized = true ∧
      (uncheckFlags 2 ps1C4).graphVerilogMetadata.verilogGenerated = true ∧
      (uncheckFlags 2 ps1C4).quartusMetadata.quartusCompiled = false ∧
      (uncheckFlags 2 ps1C4).databaseMetadata.writtenToDB = false) :=
  ⟨⟨rfl, by decide⟩,
   c4_halt_on_failure envC4 psInit ps1C4 rfl rfl rfl rfl (by decide) rfl⟩

/-- Claim C9: however the caller orders the stage requests on the
command line, the tools a Broker invocation launches appear in the fixed
pipeline order — the launch trace is a subsequence of
[graph, quartus, database], so quartus is never launched before graph
and database never before quartus. -/
theorem c9_fixed_stage_order (args : List String) (cfg : BrokerCfg) (env : Tool → ToolRun)
    (file : Option ProjectSettings) (_h : parseArgs initialCfg args = some cfg) :
    List.Sublist
      (runPipeline env (requested cfg.launch_graph cfg.launch_quartus cfg.launch_db)
        file).trace
      [Tool.graph, Tool.quartus, Tool.database] :=
  List.Sublist.trans (runPipeline_trace_sublist env _ file)
    (requested_sublist cfg.launch_graph cfg.launch_quartus cfg.launch_db)

/-- Witness for C9: the caller lists database before graph; both launch,
in pipeline order. -/
theorem c9_fixed_stage_order_witness :
    parseArgs initialCfg ["--database", "--graph"] = some cfgDG ∧
    List.Sublist
      (runPipeline envNoWrite
        (requested cfgDG.launch_graph cfgDG.launch_quartus cfgDG.launch_db) none).trace
      [Tool.graph, Tool.quartus, Tool.database] :=
  ⟨rfl, c9_fixed_stage_order ["--database", "--graph"] cfgDG envNoWrite none rfl⟩

/-- Writing an entry that is not a flawed metadata record preserves the
prefix-closure of every stored record. -/
theorem metaClosed_setEntry (fs : FSys) (p : String) (v : Option Entry)
    (hfs : MetaClosed fs)
    (hv : ∀ ps, v = some (Entry.metadataFile ps) → prefixClosed ps) :
    MetaClosed (setEntry fs p v) := by
  intro q ps h
  unfold setEntry at h
  split at h
  · exact hv ps h
  · exact hfs q ps h

/-- Moving an entry between paths preserves the prefix-closure of every
stored record. -/
theorem metaClosed_moveEntry (fs : FSys) (src dst : String) (hfs : MetaClosed fs) :
    MetaClosed (moveEntry fs src dst) := by
  intro q ps h
  unfold moveEntry at h
  split at h
  · exact hfs src ps h
  · split at h
    · exact Option.noConfusion h
    · exact hfs q ps h

/-- A freshly created record is prefix-closed (all flags false). -/
theorem freshProjectSettings_prefixClosed (n : String) :
    prefixClosed (freshProjectSettings n) := by
  simp [prefixClosed, freshProjectSettings]

/-- Conditionally moving an entry preserves the prefix-closure of every
stored record. -/
theorem metaClosed_moveIfExists (fs : FSys) (src dst : String) (hfs : MetaClosed fs) :
    MetaClosed (moveIfExists fs src dst) := by
  unfold moveIfExists
  split
  · exact metaClosed_moveEntry fs src dst hfs
  · exact hfs

/-- Conditionally removing an entry preserves the prefix-closure of
every stored record. -/
theorem metaClosed_removeIfExists (fs : FSys) (p : String) (hfs : MetaClosed fs) :
    MetaClosed (removeIfExists fs p) := by
  unfold removeIfExists
  split
  · exact metaClosed_setEntry fs p none hfs (fun ps h => Option.noConfusion h)
  · exact hfs

/-- Every `Project_manager` action maps a filesystem whose stored
records are all prefix-closed to one whose stored records are all
prefix-closed. -/
theorem pmRun_metaClosed (fs : FSys) (l n : String) (a : PMAction) (nn : String)
    (hfs : MetaClosed fs) : MetaClosed (pmRun fs l n a nn).1 := by
  cases a with
  | o =>
    simp only [pmRun]
    split_ifs <;> try exact hfs
    all_goals (split <;> (try exact hfs) <;> split_ifs <;> first | exact hfs | simp_all)
  | r =>
    simp only [pmRun]
    split_ifs <;> try exact hfs
    split
    next ps heq =>
      have hps : prefixClosed ps := hfs _ ps heq
      split_ifs <;> try exact hfs
      apply metaClosed_moveIfExists
      apply metaClosed_moveIfExists
      apply metaClosed_moveIfExists
      refine metaClosed_setEntry _ _ _ ?_ (fun q hq => Option.noConfusion hq)
      refine metaClosed_setEntry _ _ _ hfs ?_
      intro q hq
      cases hq
      exact hps
    next => exact hfs
  | c =>
    simp only [pmRun]
    have hdir : MetaClosed (setEntry fs l (some Entry.dir)) :=
      metaClosed_setEntry _ _ _ hfs (fun q hq => by simp at hq)
    split_ifs <;>
      first
        | exact hdir
        | exact hfs
        | exact metaClosed_setEntry _ _ _ hdir
            (fun q hq => by cases hq; exact freshProjectSettings_prefixClosed n)
        | exact metaClosed_setEntry _ _ _ hfs
            (fun q hq => by cases hq; exact freshProjectSettings_prefixClosed n)
  | e =>
    simp only [pmRun]
    split_ifs <;> try exact hfs
    all_goals
      exact metaClosed_removeIfExists _ _
        (metaClosed_removeIfExists _ _ (metaClosed_removeIfExists _ _ hfs))

/-- Claim C5: every ProjectRecord this program writes is prefix-closed
over [graphSerialized, verilogGenerated, quartusCompiled, writtenToDB]:
a fresh record is prefix-closed, the Broker's invalidation preserves
prefix closure for every stage argument, every `Project_manager` action
maps a filesystem of prefix-closed records to one of prefix-closed
records (covering creation and the rename round-trip), and in a
prefix-closed record a set flag at position `k` forces every flag at a
position `j ≤ k` to be set. -/
theorem c5_prefix_closure :
    (∀ n, prefixClosed (freshProjectSettings n)) ∧
    (∀ (s : Int) (ps : ProjectSettings), prefixClosed ps → prefixClosed (uncheckFlags s ps)) ∧
    (∀ (fs : FSys) (l n : String) (a : PMAction) (nn : String),
      MetaClosed fs → MetaClosed (pmRun fs l n a nn).1) ∧
    (∀ ps, prefixClosed ps →
      ∀ j k : Nat, j ≤ k → k ≤ 3 → flagAt k ps = true → flagAt j ps = true) := by
  refine ⟨freshProjectSettings_prefixClosed, ?_, pmRun_metaClosed, ?_⟩
  · intro s ps h
    obtain ⟨h01, h12, h23⟩ := h
    simp only [uncheckFlags]
    split_ifs with h3 h2 h1 h0
    all_goals (try (exfalso; omega))
    all_goals (simp_all [prefixClosed])
  · intro ps h j k hj hk hkt
    obtain ⟨h01, h12, h23⟩ := h
    interval_cases k <;> interval_cases j <;> simp_all [flagAt]

/-- Witness for C5: a concrete prefix-closed filesystem stays closed
through a rename, and invalidation keeps a fresh record closed. -/
theorem c5_prefix_closure_witness :
    (MetaClosed fsC6 ∧ prefixClosed psInit) ∧
    (MetaClosed (pmRun fsC6 "P" "A" PMAction.r "B").1 ∧
      prefixClosed (uncheckFlags 1 psInit)) := by
  have hm : MetaClosed fsC6 := by
    intro p ps h
    simp only [fsC6] at h
    split_ifs at h <;>
      first
        | (have h2 : freshProjectSettings "A" = ps := by simpa using h
           rw [← h2]; decide)
        | exact Option.noConfusion h
  exact ⟨⟨hm, by decide⟩,
    ⟨c5_prefix_closure.2.2.1 fsC6 "P" "A" PMAction.r "B" hm,
      c5_prefix_closure.2.1 1 psInit (by decide)⟩⟩

/-- Claim C8: on the erase action a missing project directory or a
missing metadata file ends the program with exit status 0 and no change
to the filesystem, while the very same two conditions on the open and
rename actions end it with exit status 1 (also with no change). -/
theorem c8_erase_missing_is_success (fs : FSys) (l n nn : String) :
    (fs l = none →
      pmRun fs l n PMAction.e nn = (fs, 0) ∧
      pmRun fs l n PMAction.o nn = (fs, 1) ∧
      pmRun fs l n PMAction.r nn = (fs, 1)) ∧
    (∀ e, fs l = some e → fs (metadataPath l n) = none →
      pmRun fs l n PMAction.e nn = (fs, 0) ∧
      pmRun fs l n PMAction.o nn = (fs, 1) ∧
      pmRun fs l n PMAction.r nn = (fs, 1)) := by
  constructor
  · intro h
    refine ⟨?_, ?_, ?_⟩ <;> simp [pmRun, h]
  · intro e he hm
    refine ⟨?_, ?_, ?_⟩ <;> simp [pmRun, he, hm]

/-- Witness for C8 on the empty filesystem (project directory absent). -/
theorem c8_erase_missing_is_success_witness :
    emptyFS "P" = none ∧
    (pmRun emptyFS "P" "A" PMAction.e "B" = (emptyFS, 0) ∧
      pmRun emptyFS "P" "A" PMAction.o "B" = (emptyFS, 1) ∧
      pmRun emptyFS "P" "A" PMAction.r "B" = (emptyFS, 1)) :=
  ⟨rfl, (c8_erase_missing_is_success emptyFS "P" "A" "B").1 rfl⟩

/-- Claim C6: renaming project `a` to `b` when the metadata file, graph
file and Verilog directory all exist (and the stored name matches `a`)
exits 0, leaves no entry at any of the three `a`-paths, stores under
`b`'s metadata path the same record with only the name changed to `b`
(all stage flags preserved), and moves the graph file and Verilog
directory to the `b`-paths; if the stored name differs from `a`, the
rename exits 1 and the filesystem is unchanged. -/
theorem c6_rename_consistency :
    (∀ (fs : FSys) (l a b : String) (ps : ProjectSettings),
      renamePathsDistinct l a b →
      (fs l).isSome = true →
      fs (metadataPath l a) = some (Entry.metadataFile ps) →
      ps.projectMetadata.name = a →
      fs (graphPath l a) = some Entry.graphFile →
      fs (verilogPath l a) = some Entry.verilogDir →
      (pmRun fs l a PMAction.r b).2 = 0 ∧
      (pmRun fs l a PMAction.r b).1 (metadataPath l a) = none ∧
      (pmRun fs l a PMAction.r b).1 (graphPath l a) = none ∧
      (pmRun fs l a PMAction.r b).1 (verilogPath l a) = none ∧
      (pmRun fs l a PMAction.r b).1 (metadataPath l b) =
        some (Entry.metadataFile
          { ps with projectMetadata := { ps.projectMetadata with name := b } }) ∧
      (pmRun fs l a PMAction.r b).1 (graphPath l b) = some Entry.graphFile ∧
      (pmRun fs l a PMAction.r b).1 (verilogPath l b) = some Entry.verilogDir) ∧
    (∀ (fs : FSys) (l a b : String) (ps : ProjectSettings),
      (fs l).isSome = true →
      fs (metadataPath l a) = some (Entry.metadataFile ps) →
      ps.projectMetadata.name ≠ a →
      pmRun fs l a PMAction.r b = (fs, 1)) := by
  constructor
  · intro fs l a b ps hdist hdir hmeta hname hgraph hver
    obtain ⟨d1, d2, d3, d4, d5, d6, d7, d8, d9, d10, d11, d12, d13, d14, d15⟩ := hdist
    have hl : (fs l).isNone = false := by
      cases hfl : fs l
      · rw [hfl] at hdir; simp at hdir
      · rfl
    have hrun : pmRun fs l a PMAction.r b =
        (moveIfExists
          (moveIfExists
            (moveIfExists
              (setEntry (setEntry fs (metadataPath l b)
                (some (Entry.metadataFile
                  { ps with projectMetadata := { ps.projectMetadata with name := b } })))
                (metadataPath l a) none)
              (graphPath l a) (graphPath l b))
            (metadataPath l a) (metadataPath l b))
          (verilogPath l a) (verilogPath l b), 0) := by
      simp [pmRun, hl, hmeta, hname]
    refine ⟨?_, ?_, ?_, ?_, ?_, ?_, ?_⟩ <;> rw [hrun] <;>
      simp [moveIfExists, moveEntry, setEntry, hmeta, hgraph, hver,
        d1, d2, d3, d4, d5, d6, d7, d8, d9, d10, d11, d12, d13, d14, d15,
        Ne.symm d1, Ne.symm d2, Ne.symm d3, Ne.symm d4, Ne.symm d5,
        Ne.symm d6, Ne.symm d7, Ne.symm d8, Ne.symm d9, Ne.symm d10,
        Ne.symm d11, Ne.symm d12, Ne.symm d13, Ne.symm d14, Ne.symm d15]
  · intro fs l a b ps hdir hmeta hname
    have hl : (fs l).isNone = false := by
      cases hfl : fs l
      · rw [hfl] at hdir; simp at hdir
      · rfl
    simp [pmRun, hl, hmeta, hname]

/-- Witness for C6 on the concrete project `A` under directory `P`,
renamed to `B`, plus the wrong-stored-name rejection. -/
theorem c6_rename_consistency_witness :
    (renamePathsDistinct "P" "A" "B" ∧
      (fsC6 "P").isSome = true ∧
      fsC6 (metadataPath "P" "A") =
        some (Entry.metadataFile (freshProjectSettings "A")) ∧
      (freshProjectSettings "A").projectMetadata.name = "A") ∧
    ((pmRun fsC6 "P" "A" PMAction.r "B").2 = 0 ∧
      (pmRun fsC6 "P" "A" PMAction.r "B").1 (metadataPath "P" "A") = none ∧
      (pmRun fsC6 "P" "A" PMAction.r "B").1 (graphPath "P" "A") = none ∧
      (pmRun fsC6 "P" "A" PMAction.r "B").1 (verilogPath "P" "A") = none ∧
      (pmRun fsC6 "P" "A" PMAction.r "B").1 (metadataPath "P" "B") =
        some (Entry.metadataFile
          { freshProjectSettings "A" with
              projectMetadata :=
                { (freshProjectSettings "A").projectMetadata with name := "B" } }) ∧
      (pmRun fsC6 "P" "A" PMAction.r "B").1 (graphPath "P" "B") = some Entry.graphFile ∧
      (pmRun fsC6 "P" "A" PMAction.r "B").1 (verilogPath "P" "B") = some Entry.verilogDir) ∧
    pmRun fsC6bad "P" "A" PMAction.r "B" = (fsC6bad, 1) :=
  ⟨⟨by decide, by decide, by decide, by decide⟩,
    c6_rename_consistency.1 fsC6 "P" "A" "B" (freshProjectSettings "A")
      (by decide) (by decide) (by decide) (by decide) (by decide) (by decide),
    c6_rename_consistency.2 fsC6bad "P" "A" "B" (freshProjectSettings "X")
      (by decide) (by decide) (by decide)⟩

/-- `Project_manager`'s argument loop never changes the selected action
when no action flag occurs among the arguments (fuel bounds the number
of loop iterations; each iteration consumes at least one argument). -/
theorem pmParse_action_of_no_flag :
    ∀ (fuel : Nat) (args : List String), args.length ≤ fuel →
      ∀ (loc nm : String) (act : PMAction) (nw : String) (res : PMParsed),
        (∀ x ∈ args, x ∉ actionFlags) →
        pmParse loc nm act nw args = some res → res.action = act := by
  intro fuel
  induction fuel with
  | zero =>
    intro args hlen loc nm act nw res hmem h
    have hnil : args = [] := List.eq_nil_of_length_eq_zero (Nat.le_zero.mp hlen)
    subst hnil
    simp only [pmParse] at h
    cases h
    rfl
  | succ fuel ih =>
    intro args hlen loc nm act nw res hmem h
    cases args with
    | nil =>
      simp only [pmParse] at h
      cases h
      rfl
    | cons opt rest =>
      have hmem2 : ∀ x ∈ rest, x ∉ actionFlags :=
        fun x hx => hmem x (List.mem_cons_of_mem _ hx)
      have hopt : opt ∉ actionFlags := hmem opt (List.mem_cons_self _ _)
      unfold pmParse at h
      split_ifs at h with h1 h2 h3 h4 h5 h6
      · cases rest with
        | nil => exact Option.noConfusion h
        | cons v rest2 =>
          exact ih rest2 (by simp at hlen; omega) v nm act nw res
            (fun x hx => hmem2 x (List.mem_cons_of_mem _ hx)) h
      · cases rest with
        | nil => exact Option.noConfusion h
        | cons v rest2 =>
          exact ih rest2 (by simp at hlen; omega) loc v act nw res
            (fun x hx => hmem2 x (List.mem_cons_of_mem _ hx)) h
      · exact absurd (by rcases h3 with rfl | rfl <;> decide) hopt
      · exact absurd (by rcases h4 with rfl | rfl <;> decide) hopt
      · exact absurd (by rcases h5 with rfl | rfl <;> decide) hopt
      · exact absurd (by rcases h6 with rfl | rfl <;> decide) hopt

/-- The Broker's inner `--project` loop never changes the selected
action when no action flag occurs among the arguments, and only ever
hands back a subset of the arguments it was given. -/
theorem parseProject_action_of_no_flag :
    ∀ (fuel : Nat) (args : List String), args.length ≤ fuel →
      ∀ (cfg : BrokerCfg) (cr : BrokerCfg × List String),
        (∀ x ∈ args, x ∉ actionFlags) →
        parseProject cfg args = some cr →
        cr.1.project_action = cfg.project_action ∧ ∀ x ∈ cr.2, x ∈ args := by
  intro fuel
  induction fuel with
  | zero =>
    intro args hlen cfg cr hmem h
    have hnil : args = [] := List.eq_nil_of_length_eq_zero (Nat.le_zero.mp hlen)
    subst hnil
    simp only [parseProject] at h
    cases h
    exact ⟨rfl, by simp⟩
  | succ fuel ih =>
    intro args hlen cfg cr hmem h
    cases args with
    | nil =>
      simp only [parseProject] at h
      cases h
      exact ⟨rfl, by simp⟩
    | cons next rest =>
      have hmem2 : ∀ x ∈ rest, x ∉ actionFlags :=
        fun x hx => hmem x (List.mem_cons_of_mem _ hx)
      have hnext : next ∉ actionFlags := hmem next (List.mem_cons_self _ _)
      unfold parseProject at h
      split_ifs at h with h1 h2 h3 h4 h5 h6
      · cases rest with
        | nil => exact Option.noConfusion h
        | cons v rest2 =>
          have hrec := ih rest2 (by simp at hlen; omega) _ cr
            (fun x hx => hmem2 x (List.mem_cons_of_mem _ hx)) h
          exact ⟨hrec.1, fun x hx =>
            List.mem_cons_of_mem _ (List.mem_cons_of_mem _ (hrec.2 x hx))⟩
      · cases rest with
        | nil => exact Option.noConfusion h
        | cons v rest2 =>
          have hrec := ih rest2 (by simp at hlen; omega) _ cr
            (fun x hx => hmem2 x (List.mem_cons_of_mem _ hx)) h
          exact ⟨hrec.1, fun x hx =>
            List.mem_cons_of_mem _ (List.mem_cons_of_mem _ (hrec.2 x hx))⟩
      · exact absurd (by rcases h3 with rfl | rfl <;> decide) hnext
      · exact absurd (by rcases h4 with rfl | rfl <;> decide) hnext
      · exact absurd (by rcases h5 with rfl | rfl <;> decide) hnext
      · exact absurd (by rcases h6 with rfl | rfl <;> decide) hnext
      · cases h
        exact ⟨rfl, fun x hx => hx⟩

/-- The Broker's outer argument loop never changes the project action
when no action flag occurs among the arguments. -/
theorem parseArgsFuel_action_of_no_flag :
    ∀ (fuel : Nat) (args : List String) (cfg cfg2 : BrokerCfg),
      (∀ x ∈ args, x ∉ actionFlags) →
      parseArgsFuel fuel cfg args = some cfg2 →
      cfg2.project_action = cfg.project_action := by
  intro fuel
  induction fuel with
  | zero =>
    intro args cfg cfg2 hmem h
    cases args with
    | nil =>
      simp only [parseArgsFuel] at h
      cases h
      rfl
    | cons a rest => exact Option.noConfusion h
  | succ fuel ih =>
    intro args cfg cfg2 hmem h
    cases args with
    | nil =>
      simp only [parseArgsFuel] at h
      cases h
      rfl
    | cons arg rest =>
      have hmem2 : ∀ x ∈ rest, x ∉ actionFlags :=
        fun x hx => hmem x (List.mem_cons_of_mem _ hx)
      simp only [parseArgsFuel] at h
      split_ifs at h with h1 h2 h3 h4 h5
      · cases hp : parseProject { cfg with launch_manager := true } rest with
        | none => rw [hp] at h; exact Option.noConfusion h
        | some cr =>
          rw [hp] at h
          have hpp := parseProject_action_of_no_flag rest.length rest (le_refl _)
            _ cr hmem2 hp
          have hout := ih cr.2 cr.1 cfg2 (fun x hx => hmem2 x (hpp.2 x hx)) h
          rw [hout, hpp.1]
      · have hrec := ih rest _ cfg2 hmem2 h
        exact hrec
      · have hrec := ih rest _ cfg2 hmem2 h
        exact hrec
      · have hrec := ih rest _ cfg2 hmem2 h
        exact hrec
      · cases h
        rfl
      · cases hk : cfg.key_arg with
        | none => rw [hk] at h; exact Option.noConfusion h
        | some t =>
          rw [hk] at h
          cases t <;> (have hrec := ih rest _ cfg2 hmem2 h; exact hrec)

/-- Claim C10: when none of the action flags is supplied, the action
defaults to open: `Project_manager`'s loop starts from `"o"` and leaves
it unchanged, the Broker's `--project` parsing starts from `"o"` and
leaves it unchanged, and running the open action never mutates the
filesystem. -/
theorem c10_default_action_open :
    (∀ (args : List String) (res : PMParsed),
      (∀ x ∈ args, x ∉ actionFlags) →
      pmParseArgs args = some res → res.action = PMAction.o) ∧
    (∀ (args : List String) (cfg : BrokerCfg),
      (∀ x ∈ args, x ∉ actionFlags) →
      parseArgs initialCfg args = some cfg → cfg.project_action = PMAction.o) ∧
    (∀ (fs : FSys) (l n nn : String), (pmRun fs l n PMAction.o nn).1 = fs) := by
  refine ⟨?_, ?_, ?_⟩
  · intro args res hmem h
    exact pmParse_action_of_no_flag args.length args (le_refl _) "" "" PMAction.o "" res hmem h
  · intro args cfg hmem h
    exact parseArgsFuel_action_of_no_flag args.length args initialCfg cfg hmem h
  · intro fs l n nn
    simp only [pmRun]
    split_ifs <;> try rfl
    all_goals (split <;> (try rfl) <;> split_ifs <;> first | rfl | simp_all)

/-- Witness for C10 on a command line with no action flag. -/
theorem c10_default_action_open_witness :
    (∀ x ∈ ["-l", "L", "-n", "N"], x ∉ actionFlags) ∧
    pmParseArgs ["-l", "L", "-n", "N"] = some ⟨"L", "N", PMAction.o, ""⟩ ∧
    (⟨"L", "N", PMAction.o, ""⟩ : PMParsed).action = PMAction.o :=
  ⟨by decide, rfl,
    c10_default_action_open.1 ["-l", "L", "-n", "N"] ⟨"L", "N", PMAction.o, ""⟩
      (by decide) rfl⟩
